import Mathlib

/-!
Verification development for the go-tabbyapi client library.

The definitions below are a shallow embedding of the library's error
taxonomy (`internal/errors/errors.go`), REST response handling
(`internal/rest`, concatenated into `internal/errors/errors.go` in this
checkout) and the SSE stream engine (`internal/stream`, whose
implementation is concatenated into `internal/stream/stream_test.go`).

Modelling conventions:
 - Go `int` becomes `Int` (HTTP status codes), Go `string` becomes `String`.
 - External library calls (`json.Unmarshal`, `http.StatusText`,
   `io.ReadAll`) are injected as function parameters: a JSON decoder is
   `String → Option α` (or `String → Except String α` when the wrapped
   cause matters), a body read is `Except String String` (error = the
   read error's message).
 - The response body handed to a stream is the full byte sequence the
   reader will eventually produce, as a `List Char`; `bufio.ReadString`
   over it is modelled by `readLine`.
-/

namespace TabbyAPI

/-! ## Error taxonomy (`internal/errors/errors.go`) -/

/-- Embeds `errors.APIError`: `StatusCode int`, `Message string`,
`RequestID string`. (The `Details interface{}` field is carried opaquely
by the source and read by none of the operations modelled here, so it is
omitted.) -/
structure GoAPIError where
  StatusCode : Int
  Message : String
  RequestID : String := ""
deriving Repr, DecidableEq

/-- Embeds `(*APIError).Code`: the `switch e.StatusCode` in
`errors.go` lines 33–51. -/
def GoAPIError.Code (e : GoAPIError) : String :=
  if e.StatusCode = 400 then "invalid_request"
  else if e.StatusCode = 401 then "authentication_error"
  else if e.StatusCode = 403 then "permission_error"
  else if e.StatusCode = 404 then "not_found"
  else if e.StatusCode = 429 then "rate_limit_exceeded"
  else if e.StatusCode ≥ 500 then "server_error"
  else "api_error"

/-- Embeds `(*APIError).HTTPStatusCode`: returns `e.StatusCode`. -/
def GoAPIError.HTTPStatusCode (e : GoAPIError) : Int :=
  e.StatusCode

/-- The status→code table exactly as the spec states it (§4.4):
400→invalid_request, 401→authentication_error, 403→permission_error,
404→not_found, 429→rate_limit_exceeded, any status ≥ 500→server_error,
every other status→api_error. Written from the spec's words, to be
compared with `GoAPIError.Code` from the source. -/
def specStatusToCode (s : Int) : String :=
  if s ≥ 500 then "server_error"
  else if s = 400 then "invalid_request"
  else if s = 401 then "authentication_error"
  else if s = 403 then "permission_error"
  else if s = 404 then "not_found"
  else if s = 429 then "rate_limit_exceeded"
  else "api_error"

/-- Embeds `errors.RequestError`: `Message string`, `StatusCode int`,
`Err error`. The wrapped cause is modelled by its message
(`none` = the `Err` field is nil). -/
structure GoRequestError where
  Message : String
  StatusCode : Int := 0
  Err : Option String := none
deriving Repr, DecidableEq

/-- Embeds `(*RequestError).HTTPStatusCode` (`errors.go` lines 79–84):
the stored code when nonzero, else `http.StatusInternalServerError`. -/
def GoRequestError.HTTPStatusCode (e : GoRequestError) : Int :=
  if e.StatusCode ≠ 0 then e.StatusCode
  else 500

/-- Embeds the predefined `errors.ErrCanceled` value
(`&RequestError{Message: "request canceled"}`, no status code set, so
`StatusCode` is Go's zero value 0). -/
def ErrCanceled : GoRequestError :=
  { Message := "request canceled" }

/-! ## REST response handling (`internal/rest`) -/

/-- Embeds `(*Client).parseErrorResponse`.
`decAPI` injects `json.Unmarshal` into an `APIError` shape (`none` =
unmarshal error), `stext` injects `http.StatusText`, and `bodyRead`
is the result of `io.ReadAll(resp.Body)`. Every branch of the source
builds (or overwrites to) an APIError whose `StatusCode` is the actual
response status. -/
def parseErrorResponse (decAPI : String → Option GoAPIError)
    (stext : Int → String) (status : Int)
    (bodyRead : Except String String) : GoAPIError :=
  match bodyRead with
  | .error e =>
      { StatusCode := status
        Message := "failed to read error response body: " ++ e }
  | .ok body =>
      if body.length = 0 then
        { StatusCode := status, Message := stext status }
      else
        match decAPI body with
        | none => { StatusCode := status, Message := body }
        | some apiError => { apiError with StatusCode := status }

/-- Result of `(*Client).handleResponse`, seen from the caller:
either an error value, or nil with the output target untouched
(`okNone`), or nil with the decoded value stored in the output target
(`okDecoded`). -/
inductive HandleResult (α : Type) where
  | apiErr (e : GoAPIError)
  | reqErr (e : GoRequestError)
  | okNone
  | okDecoded (v : α)
deriving Repr, DecidableEq

/-- Embeds `(*Client).handleResponse` (`rest` client lines 297–329).
`dec` injects `json.Unmarshal` into the output target (`.error` = the
unmarshal error's message); `resultNil` is whether the `result`
argument is nil; status 204 is `http.StatusNoContent`. -/
def handleResponse {α : Type} (decAPI : String → Option GoAPIError)
    (stext : Int → String) (dec : String → Except String α)
    (status : Int) (bodyRead : Except String String)
    (resultNil : Bool) : HandleResult α :=
  if status < 200 ∨ status ≥ 300 then
    .apiErr (parseErrorResponse decAPI stext status bodyRead)
  else if resultNil = true ∨ status = 204 then
    .okNone
  else
    match bodyRead with
    | .error e =>
        .reqErr { Message := "failed to read response body"
                  StatusCode := status, Err := some e }
    | .ok body =>
        if body.length = 0 then
          .okNone
        else
          match dec body with
          | .error e =>
              .reqErr { Message := "failed to unmarshal response body"
                        StatusCode := status, Err := some e }
          | .ok v => .okDecoded v

/-- The success path of `handleResponse` as the spec's words describe it
(§4.1): with a non-nil output target and a status other than 204, the
full body is read and JSON-decoded into the target, and any decode
failure is surfaced as a RequestError wrapping the cause. Written from
the spec, to be compared with `handleResponse` from the source; it has
no empty-body special case. -/
def specHandleResponse {α : Type} (decAPI : String → Option GoAPIError)
    (stext : Int → String) (dec : String → Except String α)
    (status : Int) (bodyRead : Except String String)
    (resultNil : Bool) : HandleResult α :=
  if status < 200 ∨ status ≥ 300 then
    .apiErr (parseErrorResponse decAPI stext status bodyRead)
  else if resultNil = true ∨ status = 204 then
    .okNone
  else
    match bodyRead with
    | .error e =>
        .reqErr { Message := "failed to read response body"
                  StatusCode := status, Err := some e }
    | .ok body =>
        match dec body with
        | .error e =>
            .reqErr { Message := "failed to unmarshal response body"
                      StatusCode := status, Err := some e }
        | .ok v => .okDecoded v

/-! ## SSE event parsing (`internal/stream`, `parseEvent`) -/

/-- Embeds `unicode.IsSpace` restricted to the ASCII range (the only characters
SSE field values can begin or end with here). -/
def isGoSpace (c : Char) : Bool :=
  c = ' ' || c = '\t' || c = '\n' || c = '\x0b' || c = '\x0c' || c = '\r'

/-- Embeds `strings.TrimSpace` (on the characters of the line). -/
def trimSpace (m : List Char) : List Char :=
  ((m.dropWhile isGoSpace).reverse.dropWhile isGoSpace).reverse

/-- Embeds `strings.TrimRight(line, "\r")`: strip trailing carriage
returns only. -/
def trimRightCR (m : List Char) : List Char :=
  (m.reverse.dropWhile (· = '\r')).reverse

/-- Embeds `strings.SplitN(line, ":", 2)` as the pair
(before the first colon, everything after it). The source only calls it
on lines that contain a colon, so both parts exist. -/
def splitFirstColon (m : List Char) : List Char × List Char :=
  (m.takeWhile (· ≠ ':'), (m.dropWhile (· ≠ ':')).drop 1)

/-- Embeds `strings.Split(s, "\n")`: the segments of `s` between
newlines ("a\nb" ↦ ["a", "b"], "a\n" ↦ ["a", ""], "" ↦ [""]).
The result is always non-empty. -/
def splitNL : List Char → List (List Char)
  | [] => [[]]
  | c :: rest =>
    if c = '\n' then [] :: splitNL rest
    else
      match splitNL rest with
      | [] => [[c]]
      | g :: gs => (c :: g) :: gs

/-- Embeds the `sseEvent` struct: `id`, `event`, `data` strings. -/
structure SSEEvent where
  id : String
  event : String
  data : String
deriving Repr, DecidableEq

/-- One iteration of the `for _, line := range strings.Split(eventStr, "\n")`
loop body of `parseEvent`, applied to the already-trimmed line (Go's
local `line` after `strings.TrimRight(line, "\r")`): branch on the
recognised field markers `id:`, `event:`, `data:`, the comment marker
`:` (`strings.HasPrefix` is `List.isPrefixOf` on the characters), and
the generic field-splitting fallback for other lines containing a
colon. Go's locals `parts`, `field` and `value` are inlined. -/
def procLineCore (ev : SSEEvent) (line : List Char) : SSEEvent :=
  if line = [] then ev
  else if ['i', 'd', ':'].isPrefixOf line then
    { ev with id := ⟨trimSpace (line.drop 3)⟩ }
  else if ['e', 'v', 'e', 'n', 't', ':'].isPrefixOf line then
    { ev with event := ⟨trimSpace (line.drop 6)⟩ }
  else if ['d', 'a', 't', 'a', ':'].isPrefixOf line then
    { ev with data :=
        (if ev.data ≠ "" then ev.data ++ "\n" else ev.data)
          ++ ⟨trimSpace (line.drop 5)⟩ }
  else if [':'].isPrefixOf line then ev
  else if line.contains ':' then
    if trimSpace (splitFirstColon line).1 = ['i', 'd'] then
      { ev with id := ⟨trimSpace (splitFirstColon line).2⟩ }
    else if trimSpace (splitFirstColon line).1 = ['e', 'v', 'e', 'n', 't'] then
      { ev with event := ⟨trimSpace (splitFirstColon line).2⟩ }
    else if trimSpace (splitFirstColon line).1 = ['d', 'a', 't', 'a'] then
      { ev with data :=
          (if ev.data ≠ "" then ev.data ++ "\n" else ev.data)
            ++ ⟨trimSpace (splitFirstColon line).2⟩ }
    else ev
  else ev

/-- The loop body on the raw line: first `strings.TrimRight(line, "\r")`,
then the field dispatch. -/
def procLine (ev : SSEEvent) (rawLine : List Char) : SSEEvent :=
  procLineCore ev (trimRightCR rawLine)

/-- Embeds `parseEvent` (`internal/stream`, identical copy in
`tabby/options.go`): fold the loop body over the lines of the
accumulated event text, then default the event type to "message".
The source's `error` return is always nil, so the event is returned
directly. -/
def parseEvent (eventStr : String) : SSEEvent :=
  let ev := (splitNL eventStr.data).foldl procLine ⟨"", "", ""⟩
  if ev.event = "" then { ev with event := "message" } else ev

/-- The data value a single line contributes in `parseEvent`, if any:
`some v` exactly when the line reaches one of the two data-appending
branches of `procLine`, with `v` the appended value. Used to state
what "the per-line data values of an event" means. -/
def lineDataValueCore (line : List Char) : Option String :=
  if line = [] then none
  else if ['i', 'd', ':'].isPrefixOf line then none
  else if ['e', 'v', 'e', 'n', 't', ':'].isPrefixOf line then none
  else if ['d', 'a', 't', 'a', ':'].isPrefixOf line then
    some ⟨trimSpace (line.drop 5)⟩
  else if [':'].isPrefixOf line then none
  else if line.contains ':' then
    if trimSpace (splitFirstColon line).1 = ['i', 'd'] then none
    else if trimSpace (splitFirstColon line).1 = ['e', 'v', 'e', 'n', 't'] then
      none
    else if trimSpace (splitFirstColon line).1 = ['d', 'a', 't', 'a'] then
      some ⟨trimSpace (splitFirstColon line).2⟩
    else none
  else none

/-- Applies `lineDataValueCore` to the raw line, after the `\r` trim. -/
def lineDataValue (rawLine : List Char) : Option String :=
  lineDataValueCore (trimRightCR rawLine)

/-- The per-line data values of an event's accumulated text, in order. -/
def dataValues (eventStr : String) : List String :=
  (splitNL eventStr.data).filterMap lineDataValue

/-- "The per-line values concatenated with a single `\n` between
consecutive values" — the joining operation exactly as the spec states
it, written from the spec's words for comparison with what `parseEvent`
computes. -/
def joinNL : List String → String
  | [] => ""
  | [v] => v
  | v :: vs => v ++ "\n" ++ joinNL vs

/-! ## SSE stream engine (`internal/stream`, `Stream[T]`) -/

/-- Embeds `bufio.Reader.ReadString('\n')` over the remaining body
bytes: returns (data read, remaining bytes, delimiter found). When no
newline remains, all remaining bytes are returned with `found = false`
(Go: data plus `io.EOF`). -/
def readLine : List Char → List Char × List Char × Bool
  | [] => ([], [], false)
  | c :: cs =>
    if c = '\n' then ([c], cs, true)
    else
      let r := readLine cs
      (c :: r.1, r.2.1, r.2.2)

theorem readLine_append (l : List Char) :
    (readLine l).1 ++ (readLine l).2.1 = l := by
  induction l with
  | nil => rfl
  | cons c cs ih =>
    by_cases h : c = '\n' <;> simp [readLine, h, ih]

theorem readLine_found_ne (l : List Char) (h : (readLine l).2.2 = true) :
    (readLine l).1 ≠ [] := by
  cases l with
  | nil => simp [readLine] at h
  | cons c cs =>
    by_cases hc : c = '\n' <;> simp [readLine, hc]

theorem readLine_rest_lt (l : List Char) (h : (readLine l).1 ≠ []) :
    (readLine l).2.1.length < l.length := by
  have hlen : (readLine l).1.length + (readLine l).2.1.length = l.length := by
    rw [← List.length_append, readLine_append]
  cases hl : (readLine l).1 with
  | nil => exact absurd hl h
  | cons x xs => rw [hl] at hlen; simp at hlen; omega

/-- Result of one `readEvent` call in the pure model: a parsed event
with the remaining bytes, or end-of-stream (`io.EOF` with an empty
accumulation buffer). -/
inductive ReadEventResult where
  | ok (e : SSEEvent) (rest : List Char)
  | eof
deriving Repr, DecidableEq

/-- Embeds `(*Stream[T]).readEvent`: loop reading `\n`-delimited lines;
at end-of-input return the parsed accumulation buffer if non-empty,
else EOF; a blank line (`"\n"` or `"\r\n"`) terminates a non-empty
accumulated event and is skipped otherwise; any other line is appended
(newline included) to the buffer. -/
def readEvent (input : List Char) (buffer : String) : ReadEventResult :=
  if hf : (readLine input).2.2 = false then
    if buffer.length > 0 then .ok (parseEvent buffer) (readLine input).2.1
    else .eof
  else if hb : (readLine input).1 = ['\n'] ∨ (readLine input).1 = ['\r', '\n'] then
    if buffer.length > 0 then .ok (parseEvent buffer) (readLine input).2.1
    else readEvent (readLine input).2.1 buffer
  else readEvent (readLine input).2.1 (buffer ++ ⟨(readLine input).1⟩)
termination_by input.length
decreasing_by
  · exact readLine_rest_lt input (by rcases hb with h | h <;> simp [h])
  · exact readLine_rest_lt input
      (readLine_found_ne input (by simpa using hf))

/-- The mutable state of a `Stream[T]` value: the `closed` flag, whether
the stream's context is cancelled (`ctx.Done()` fires), and the
remaining unread body bytes (the `bufio.Reader`'s position). A freshly
created stream (`New`) has `closed = false`, an uncancelled context and
the whole body ahead of it. -/
structure StreamState where
  closed : Bool
  canceled : Bool
  buf : List Char
deriving Repr, DecidableEq

/-- The error outcomes of `Recv`: the predefined `ErrStreamClosed`
value, `ctx.Err()` (`context.Canceled`), `io.EOF`, or a `StreamError`
wrapping a JSON unmarshal failure. -/
inductive RecvErr where
  | streamClosed
  | ctxCanceled
  | eof
  | unmarshalError (msg : String)
deriving Repr, DecidableEq

/-- Embeds `(*Stream[T]).Recv` (one locked call): closed check, then
non-blocking context check, then `readEvent`, then `json.Unmarshal` of
the event's data (injected as `dec`). Returns the result together with
the stream state after the call. -/
def Recv {α : Type} (dec : String → Option α) (s : StreamState) :
    Except RecvErr α × StreamState :=
  if s.closed then (.error .streamClosed, s)
  else if s.canceled then (.error .ctxCanceled, s)
  else
    match readEvent s.buf "" with
    | .eof => (.error .eof, { s with buf := [] })
    | .ok e rest =>
      match dec e.data with
      | none =>
          (.error (.unmarshalError "failed to unmarshal event data"),
           { s with buf := rest })
      | some item => (.ok item, { s with buf := rest })

/-- Embeds `(*Stream[T]).Close` (one locked call): already closed
returns nil unchanged; otherwise set closed, cancel the context, and
close the body, whose result (`bodyCloseErr`, nil = `none`) is
returned. -/
def Close (bodyCloseErr : Option String) (s : StreamState) :
    Option String × StreamState :=
  if s.closed then (none, s)
  else (bodyCloseErr, { s with closed := true, canceled := true })

/-- Runs `n` sequential `Recv` calls, threading the stream state; returns
the list of results and the final state. -/
def recvList {α : Type} (dec : String → Option α) (s : StreamState) :
    Nat → List (Except RecvErr α) × StreamState
  | 0 => ([], s)
  | n + 1 =>
    let r := Recv dec s
    let rs := recvList dec r.2 n
    (r.1 :: rs.1, rs.2)

/-- Embeds `ReadStream[T]` (`internal/stream`): a response with status
other than `http.StatusOK` (200) has its body read and closed and
yields an APIError carrying that status; a 200 response yields a fresh
stream over the body. -/
def ReadStream (status : Int) (body : String) :
    Except GoAPIError StreamState :=
  if status ≠ 200 then
    .error { StatusCode := status
             Message := "unexpected status code: " ++ toString status
                          ++ ", body: " ++ body }
  else
    .ok { closed := false, canceled := false, buf := body.data }

/-- A non-blank, newline-terminated SSE field line, as `readEvent`
consumes them: content `m` with no interior newline followed by the
`\n` delimiter, the whole line not being the event terminator
(`"\n"` or `"\r\n"`). -/
def IsFieldLine (l : List Char) : Prop :=
  ∃ m, l = m ++ ['\n'] ∧ '\n' ∉ m ∧ m ≠ [] ∧ m ≠ ['\r']

/-- The bytes of one blank-line-terminated event on the wire: its field
lines followed by the `\n` terminator line. -/
def eventBytes (lines : List (List Char)) : List Char :=
  lines.flatten ++ ['\n']

/-- The bytes of a whole SSE body made of consecutive
blank-line-terminated events. -/
def streamBytes (blocks : List (List (List Char))) : List Char :=
  (blocks.map eventBytes).flatten

/-! ## General helper lemmas -/

theorem string_length_eq_zero (s : String) : s.length = 0 ↔ s = "" := by
  constructor
  · intro h
    cases s with
    | mk d =>
      have hd : d = [] := List.length_eq_zero.mp h
      rw [hd]
  · intro h
    rw [h]
    rfl

theorem recv_on_closed {α : Type} (dec : String → Option α)
    (s : StreamState) (h : s.closed = true) :
    Recv dec s = (.error .streamClosed, s) := by
  simp [Recv, h]

theorem close_on_closed (e2 : Option String) (s : StreamState)
    (h : s.closed = true) : Close e2 s = (none, s) := by
  simp [Close, h]

/-! ## Theorems for the claims -/

/-- C7: For every APIError, the machine code returned by `Code()` is a
pure function of its HTTP status code following exactly the mapping
400→invalid_request, 401→authentication_error, 403→permission_error,
404→not_found, 429→rate_limit_exceeded, any status ≥ 500→server_error,
and every other status→api_error. -/
theorem apiError_code_is_status_mapping (e : GoAPIError) :
    e.Code = specStatusToCode e.StatusCode := by
  unfold GoAPIError.Code specStatusToCode
  split_ifs <;> first | rfl | omega

/-- C10: `RequestError.HTTPStatusCode()` returns the stored status code
when it is nonzero and 500 when no status code was set; the predefined
`ErrCanceled` value, constructed with no status code, reports HTTP
status 500. -/
theorem requestError_httpStatusCode_default (e : GoRequestError) :
    (e.StatusCode ≠ 0 → e.HTTPStatusCode = e.StatusCode)
    ∧ (e.StatusCode = 0 → e.HTTPStatusCode = 500)
    ∧ ErrCanceled.StatusCode = 0
    ∧ ErrCanceled.HTTPStatusCode = 500 := by
  refine ⟨?_, ?_, rfl, rfl⟩ <;> intro h <;>
    simp [GoRequestError.HTTPStatusCode, h]

theorem requestError_httpStatusCode_default_witness :
    (⟨"m", 404, none⟩ : GoRequestError).HTTPStatusCode = 404
    ∧ (⟨"m", 0, none⟩ : GoRequestError).HTTPStatusCode = 500 :=
  ⟨(requestError_httpStatusCode_default ⟨"m", 404, none⟩).1 (by decide),
   (requestError_httpStatusCode_default ⟨"m", 0, none⟩).2.1 rfl⟩

/-- C6: for every non-2xx response whose body JSON-decodes into an
APIError shape, the error returned by `parseErrorResponse` has
`HTTPStatusCode()` equal to the actual response status code; whatever
`status_code` the body carried is overwritten. -/
theorem parseErrorResponse_overwrites_status
    (decAPI : String → Option GoAPIError) (stext : Int → String)
    (status : Int) (body : String) (e : GoAPIError)
    (h : decAPI body = some e) :
    (parseErrorResponse decAPI stext status (.ok body)).HTTPStatusCode
      = status := by
  simp only [parseErrorResponse, GoAPIError.HTTPStatusCode]
  split_ifs
  · rfl
  · simp [h]

theorem parseErrorResponse_overwrites_status_witness :
    (parseErrorResponse
        (fun s => if s = "x" then some ⟨999, "m", ""⟩ else none)
        (fun _ => "") 400 (.ok "x")).HTTPStatusCode = 400 :=
  parseErrorResponse_overwrites_status _ _ 400 "x" ⟨999, "m", ""⟩ (by decide)

/-- C9 counterexample: a 200 response with a non-nil output target and an
empty body. `handleResponse` returns nil without attempting a decode,
while the spec's description (decode the full body, surfacing any decode
failure) would produce a RequestError, since JSON-decoding an empty
input fails. -/
theorem handleResponse_empty_body_cex :
    handleResponse (α := Unit) (fun _ => none) (fun _ => "")
        (fun s => if s.length = 0 then
          .error "unexpected end of JSON input" else .ok ())
        200 (.ok "") false
      = .okNone
    ∧ specHandleResponse (α := Unit) (fun _ => none) (fun _ => "")
        (fun s => if s.length = 0 then
          .error "unexpected end of JSON input" else .ok ())
        200 (.ok "") false
      = .reqErr ⟨"failed to unmarshal response body", 200,
                 some "unexpected end of JSON input"⟩
    ∧ (HandleResult.okNone (α := Unit))
        ≠ .reqErr ⟨"failed to unmarshal response body", 200,
                   some "unexpected end of JSON input"⟩ :=
  ⟨rfl, rfl, by decide⟩

/-- C9 amended: for every 2xx response, a nil output target or a 204
status yields nil without decoding; otherwise, with a read body, an
empty body also yields nil without decoding, and a non-empty body is
JSON-decoded into the output target with any decode failure surfaced
as a RequestError wrapping the cause; a body read failure is likewise
surfaced as a RequestError wrapping the cause. -/
theorem handleResponse_decode_surfaced {α : Type}
    (decAPI : String → Option GoAPIError) (stext : Int → String)
    (dec : String → Except String α) (status : Int) (body : String)
    (resultNil : Bool) (h2 : 200 ≤ status) (h3 : status < 300) :
    ((resultNil = true ∨ status = 204) →
      handleResponse decAPI stext dec status (.ok body) resultNil
        = .okNone)
    ∧ (resultNil = false → status ≠ 204 → body = "" →
      handleResponse decAPI stext dec status (.ok body) resultNil
        = .okNone)
    ∧ (∀ e, resultNil = false → status ≠ 204 → body ≠ "" →
        dec body = .error e →
        handleResponse decAPI stext dec status (.ok body) resultNil
          = .reqErr ⟨"failed to unmarshal response body", status, some e⟩)
    ∧ (∀ v, resultNil = false → status ≠ 204 → body ≠ "" →
        dec body = .ok v →
        handleResponse decAPI stext dec status (.ok body) resultNil
          = .okDecoded v)
    ∧ (∀ e, resultNil = false → status ≠ 204 →
        handleResponse decAPI stext dec status (.error e) resultNil
          = .reqErr ⟨"failed to read response body", status, some e⟩) := by
  have hn : ¬(status < 200 ∨ status ≥ 300) := by omega
  refine ⟨?_, ?_, ?_, ?_, ?_⟩
  · intro h
    simp [handleResponse, hn, h]
  · intro h1 h4 hb
    have hlen : body.length = 0 := (string_length_eq_zero body).mpr hb
    simp [handleResponse, hn, h1, h4, hlen]
  · intro er h1 h4 hb hdec
    have hlen : ¬body.length = 0 :=
      fun h => hb ((string_length_eq_zero body).mp h)
    simp [handleResponse, hn, h1, h4, hlen, hdec]
  · intro v h1 h4 hb hdec
    have hlen : ¬body.length = 0 :=
      fun h => hb ((string_length_eq_zero body).mp h)
    simp [handleResponse, hn, h1, h4, hlen, hdec]
  · intro er h1 h4
    simp [handleResponse, hn, h1, h4]

theorem handleResponse_decode_surfaced_witness :
    handleResponse (α := Nat) (fun _ => none) (fun _ => "")
        (fun _ => .ok 5) 200 (.ok "b") false = .okDecoded 5 :=
  (handleResponse_decode_surfaced (fun _ => none) (fun _ => "")
      (fun _ => .ok 5) 200 "b" false (by decide) (by decide)).2.2.2.1 5
    rfl (by decide) (by decide) rfl

/-- C8 counterexample: 201 lies in the 2xx range, yet `ReadStream`
returns an APIError rather than a stream: the source accepts exactly
status 200. -/
theorem readStream_201_cex :
    ((200 : Int) ≤ 201 ∧ (201 : Int) < 300)
    ∧ ReadStream 201 ""
        = .error ⟨201, "unexpected status code: 201, body: ", ""⟩ :=
  ⟨by decide, rfl⟩

/-- C8 amended: a Stream over the response is created and returned with
no error exactly when the response status is 200 OK; every other
status — non-2xx codes and the remaining 2xx codes alike — yields an
APIError carrying the response status. -/
theorem readStream_ok_iff_200 (status : Int) (body : String) :
    (status = 200 →
      ReadStream status body = .ok ⟨false, false, body.data⟩)
    ∧ (status ≠ 200 →
      ReadStream status body
        = .error ⟨status, "unexpected status code: " ++ toString status
                            ++ ", body: " ++ body, ""⟩) := by
  constructor <;> intro h <;> simp [ReadStream, h]

theorem readStream_ok_iff_200_witness :
    ReadStream 200 "x" = .ok ⟨false, false, "x".data⟩ :=
  (readStream_ok_iff_200 200 "x").1 rfl

/-- C4: once `Close()` has returned, every subsequent `Recv` returns
the predefined stream-closed error with the state — including the
reader position — unchanged (no read from the body), and every
subsequent `Close` returns nil and changes nothing: the closed state
is absorbing. -/
theorem closed_stream_absorbing {α : Type} (dec : String → Option α)
    (e e2 : Option String) (s : StreamState) :
    Recv dec (Close e s).2 = (.error .streamClosed, (Close e s).2)
    ∧ Close e2 (Close e s).2 = (none, (Close e s).2) := by
  have hc : (Close e s).2.closed = true := by
    unfold Close
    split_ifs with h
    · exact h
    · rfl
  exact ⟨recv_on_closed dec _ hc, close_on_closed e2 _ hc⟩

/-- C5: for a non-closed stream whose cancellation context is already
cancelled, `Recv` returns the context's cancellation error immediately
with the state — including the reader position — untouched: no read is
attempted and no decoded item is returned. -/
theorem recv_canceled_context {α : Type} (dec : String → Option α)
    (s : StreamState) (hcl : s.closed = false) (hca : s.canceled = true) :
    Recv dec s = (.error .ctxCanceled, s) := by
  simp [Recv, hcl, hca]

theorem recv_canceled_context_witness :
    Recv (fun s => some s) ⟨false, true, "data: 1\n\n".data⟩
      = (.error .ctxCanceled, ⟨false, true, "data: 1\n\n".data⟩) :=
  recv_canceled_context _ _ rfl rfl

theorem string_append_mk (s : String) (l : List Char) :
    s ++ (⟨l⟩ : String) = ⟨s.data ++ l⟩ := by
  cases s
  rfl

theorem string_append_mk_nil (s : String) :
    s ++ (⟨[]⟩ : String) = s := by
  rw [string_append_mk]
  cases s
  simp

theorem string_length_append_mk (s : String) (l : List Char) :
    (s ++ (⟨l⟩ : String)).length = s.length + l.length := by
  rw [string_append_mk]
  cases s with
  | mk d => simp [String.length]

theorem string_append_data (s t : String) :
    (s ++ t).data = s.data ++ t.data := by
  cases s
  cases t
  rfl

theorem string_append_assoc (a b c : String) :
    a ++ b ++ c = a ++ (b ++ c) := by
  cases a with
  | mk x =>
    cases b with
    | mk y =>
      cases c with
      | mk z =>
        show (⟨x ++ y ++ z⟩ : String) = ⟨x ++ (y ++ z)⟩
        rw [List.append_assoc]

theorem string_nil_append (s : String) : "" ++ s = s := by
  cases s
  rfl

theorem string_length_append (s t : String) :
    (s ++ t).length = s.length + t.length := by
  cases s with
  | mk x =>
    cases t with
    | mk y =>
      show (x ++ y).length = x.length + y.length
      exact List.length_append x y

theorem readLine_line (m rest : List Char) (hm : '\n' ∉ m) :
    readLine (m ++ '\n' :: rest) = (m ++ ['\n'], rest, true) := by
  induction m with
  | nil => simp [readLine]
  | cons c cs ih =>
    have hc : ¬(c = '\n') := fun h => hm (h ▸ List.mem_cons_self c cs)
    have hcs : '\n' ∉ cs := fun h => hm (List.mem_cons_of_mem _ h)
    simp [readLine, hc, ih hcs]

theorem readEvent_step_eof (input : List Char) (buffer : String)
    (hf : (readLine input).2.2 = false) :
    readEvent input buffer
      = if buffer.length > 0 then
          .ok (parseEvent buffer) (readLine input).2.1
        else .eof := by
  rw [readEvent]
  simp [hf]

theorem readEvent_step_blank_stop (input rest : List Char) (buffer : String)
    (hr : readLine input = (['\n'], rest, true)) (hb : 0 < buffer.length) :
    readEvent input buffer = .ok (parseEvent buffer) rest := by
  have h1 : ¬((readLine input).2.2 = false) := by
    rw [hr]
    simp
  have h2 : (readLine input).1 = ['\n'] ∨ (readLine input).1 = ['\r', '\n'] := by
    rw [hr]
    left
    rfl
  rw [readEvent, dif_neg h1, dif_pos h2, if_pos hb, hr]

theorem readEvent_step_line (input rest m : List Char) (buffer : String)
    (hr : readLine input = (m ++ ['\n'], rest, true))
    (hm1 : m ≠ []) (hm2 : m ≠ ['\r']) :
    readEvent input buffer = readEvent rest (buffer ++ ⟨m ++ ['\n']⟩) := by
  have h1 : ¬((readLine input).2.2 = false) := by
    rw [hr]
    simp
  have hnb : ¬((readLine input).1 = ['\n'] ∨ (readLine input).1 = ['\r', '\n']) := by
    rw [hr]
    rintro (h | h)
    · have h' : m ++ ['\n'] = ['\n'] := h
      have hd := congrArg List.dropLast h'
      rw [List.dropLast_concat] at hd
      exact hm1 hd
    · have h' : m ++ ['\n'] = ['\r', '\n'] := h
      have hd := congrArg List.dropLast h'
      rw [List.dropLast_concat] at hd
      exact hm2 hd
  rw [readEvent, dif_neg h1, dif_neg hnb, hr]

theorem readEvent_block : ∀ (lines : List (List Char)) (rest : List Char)
    (buffer : String),
    (∀ l ∈ lines, IsFieldLine l) → (0 < buffer.length ∨ lines ≠ []) →
    readEvent (lines.flatten ++ '\n' :: rest) buffer
      = .ok (parseEvent (buffer ++ ⟨lines.flatten⟩)) rest := by
  intro lines
  induction lines with
  | nil =>
    intro rest buffer h hne
    have hb : 0 < buffer.length := by
      rcases hne with h1 | h1
      · exact h1
      · exact absurd rfl h1
    have hr : readLine (([] : List (List Char)).flatten ++ '\n' :: rest)
        = (['\n'], rest, true) := by
      simpa using readLine_line [] rest (by simp)
    rw [readEvent_step_blank_stop _ _ _ hr hb]
    simp [string_append_mk_nil]
  | cons l ls ih =>
    intro rest buffer h hne
    obtain ⟨m, hlm, hmnl, hm1, hm2⟩ := h l (List.mem_cons_self l ls)
    have hshape : (l :: ls).flatten ++ '\n' :: rest
        = m ++ '\n' :: (ls.flatten ++ '\n' :: rest) := by
      rw [List.flatten_cons, hlm]
      simp
    have hr : readLine ((l :: ls).flatten ++ '\n' :: rest)
        = (m ++ ['\n'], ls.flatten ++ '\n' :: rest, true) := by
      rw [hshape]
      exact readLine_line m _ hmnl
    rw [readEvent_step_line _ _ m buffer hr hm1 hm2]
    rw [ih rest (buffer ++ ⟨m ++ ['\n']⟩)
        (fun x hx => h x (List.mem_cons_of_mem l hx))
        (Or.inl (by rw [string_length_append_mk]; simp))]
    rw [string_append_mk, string_append_mk, string_append_mk]
    rw [List.flatten_cons, hlm]
    simp

theorem readEvent_block_eof : ∀ (lines : List (List Char)) (buffer : String),
    (∀ l ∈ lines, IsFieldLine l) → (0 < buffer.length ∨ lines ≠ []) →
    readEvent lines.flatten buffer
      = .ok (parseEvent (buffer ++ ⟨lines.flatten⟩)) [] := by
  intro lines
  induction lines with
  | nil =>
    intro buffer h hne
    have hb : 0 < buffer.length := by
      rcases hne with h1 | h1
      · exact h1
      · exact absurd rfl h1
    rw [List.flatten_nil, readEvent_step_eof [] buffer rfl]
    simp [hb, readLine, string_append_mk_nil]
  | cons l ls ih =>
    intro buffer h hne
    obtain ⟨m, hlm, hmnl, hm1, hm2⟩ := h l (List.mem_cons_self l ls)
    have hshape : (l :: ls).flatten = m ++ '\n' :: ls.flatten := by
      rw [List.flatten_cons, hlm]
      simp
    have hr : readLine ((l :: ls).flatten)
        = (m ++ ['\n'], ls.flatten, true) := by
      rw [hshape]
      exact readLine_line m _ hmnl
    rw [readEvent_step_line _ _ m buffer hr hm1 hm2]
    rw [ih (buffer ++ ⟨m ++ ['\n']⟩)
        (fun x hx => h x (List.mem_cons_of_mem l hx))
        (Or.inl (by rw [string_length_append_mk]; simp))]
    rw [string_append_mk, string_append_mk, string_append_mk]
    rw [List.flatten_cons, hlm]
    simp

theorem recv_empty {α : Type} (dec : String → Option α) :
    Recv dec ⟨false, false, []⟩ = (.error .eof, ⟨false, false, []⟩) := by
  have he : readEvent [] "" = .eof := by
    rw [readEvent_step_eof [] "" rfl]
    rfl
  simp [Recv, he]

set_option maxHeartbeats 1000000 in
theorem procLine_data_none (ev : SSEEvent) (l : List Char)
    (h : lineDataValue l = none) : (procLine ev l).data = ev.data := by
  unfold procLine procLineCore
  unfold lineDataValue lineDataValueCore at h
  split_ifs at h ⊢ <;> first | rfl | (exact absurd h (by simp))

set_option maxHeartbeats 1000000 in
theorem procLine_data_some (ev : SSEEvent) (l : List Char) (v : String)
    (h : lineDataValue l = some v) :
    (procLine ev l).data
      = (if ev.data ≠ "" then ev.data ++ "\n" else ev.data) ++ v := by
  unfold procLine procLineCore
  unfold lineDataValue lineDataValueCore at h
  split_ifs at h ⊢ <;>
    first
      | (injection h with h2; rw [h2])
      | (exact absurd h (by simp))

theorem foldl_procLine_data : ∀ (lines : List (List Char)) (ev : SSEEvent),
    (lines.foldl procLine ev).data
      = (lines.filterMap lineDataValue).foldl
          (fun d v => (if d ≠ "" then d ++ "\n" else d) ++ v) ev.data := by
  intro lines
  induction lines with
  | nil => intro ev; rfl
  | cons l ls ih =>
    intro ev
    rw [List.foldl_cons, ih]
    cases h : lineDataValue l with
    | none =>
      rw [procLine_data_none ev l h, List.filterMap_cons, h]
    | some v =>
      rw [procLine_data_some ev l v h, List.filterMap_cons, h, List.foldl_cons]

theorem parseEvent_data_eq_foldl (eventStr : String) :
    (parseEvent eventStr).data
      = (dataValues eventStr).foldl
          (fun d v => (if d ≠ "" then d ++ "\n" else d) ++ v) "" := by
  have hf := foldl_procLine_data (splitNL eventStr.data) ⟨"", "", ""⟩
  simp only [parseEvent, dataValues]
  split_ifs <;> simpa using hf

theorem foldl_join_of_ne : ∀ (vs : List String) (d : String), d ≠ "" →
    vs.foldl (fun d v => (if d ≠ "" then d ++ "\n" else d) ++ v) d
      = joinNL (d :: vs) := by
  intro vs
  induction vs with
  | nil =>
    intro d hd
    rfl
  | cons v vs ih =>
    intro d hd
    rw [List.foldl_cons, if_pos hd]
    have hne : d ++ "\n" ++ v ≠ "" := by
      intro hcon
      have hlen := congrArg String.length hcon
      rw [string_length_append, string_length_append] at hlen
      have h1 : ("\n" : String).length = 1 := rfl
      have h2 : ("" : String).length = 0 := rfl
      omega
    rw [ih (d ++ "\n" ++ v) hne]
    cases vs with
    | nil => rfl
    | cons w ws =>
      show d ++ "\n" ++ v ++ "\n" ++ joinNL (w :: ws)
          = d ++ "\n" ++ (v ++ "\n" ++ joinNL (w :: ws))
      simp only [string_append_assoc]

/-- C2 amended: for every accumulated event text, the parsed event's
data payload equals the per-line data values joined with a single `\n`
between consecutive values after discarding the longest leading run of
empty values (a value appended while the accumulated data is still
empty contributes no separator). -/
theorem parseEvent_data_join (eventStr : String) :
    (parseEvent eventStr).data
      = joinNL ((dataValues eventStr).dropWhile (· == "")) := by
  rw [parseEvent_data_eq_foldl]
  generalize dataValues eventStr = vs
  induction vs with
  | nil => rfl
  | cons v vs ih =>
    rw [List.foldl_cons]
    by_cases hv : v = ""
    · subst hv
      rw [List.dropWhile_cons_of_pos (by simp)]
      rw [if_neg (by simp), string_nil_append]
      exact ih
    · rw [List.dropWhile_cons_of_neg (by simp [hv])]
      rw [if_neg (by simp), string_nil_append]
      exact foldl_join_of_ne vs v hv

set_option maxRecDepth 4000 in
/-- C2 counterexample: the accumulated event text "data:\ndata:b\n" has
per-line data values ["", "b"]; joined with a single `\n` between
consecutive values, that is "\nb", but `parseEvent` yields "b": the
separator is only inserted when the accumulated data is already
non-empty. -/
theorem parseEvent_join_cex :
    dataValues "data:\ndata:b\n" = ["", "b"]
    ∧ joinNL (dataValues "data:\ndata:b\n") = "\nb"
    ∧ (parseEvent "data:\ndata:b\n").data = "b"
    ∧ (parseEvent "data:\ndata:b\n").data
        ≠ joinNL (dataValues "data:\ndata:b\n") :=
  ⟨by decide, by decide, by decide, by decide⟩

/-- C3: when the byte stream ends immediately after a well-formed
event's lines, with no trailing blank line, the `Recv` call that hits
end-of-file with a non-empty accumulation buffer still parses and
returns that final event's decoded item; only the next `Recv` call
returns the end-of-stream sentinel. -/
theorem recv_final_event_at_eof {α : Type} (dec : String → Option α)
    (lines : List (List Char)) (item : α)
    (h : ∀ l ∈ lines, IsFieldLine l) (hne : lines ≠ [])
    (hdec : dec (parseEvent ⟨lines.flatten⟩).data = some item) :
    Recv dec ⟨false, false, lines.flatten⟩
      = (.ok item, ⟨false, false, []⟩)
    ∧ Recv dec ⟨false, false, []⟩
      = (.error .eof, ⟨false, false, []⟩) := by
  constructor
  · have hre := readEvent_block_eof lines "" h (Or.inr hne)
    rw [string_nil_append] at hre
    simp [Recv, hre, hdec]
  · exact recv_empty dec

set_option maxRecDepth 4000 in
theorem recv_final_event_at_eof_witness :
    Recv (fun s => if s = "1" then some 1 else none)
        ⟨false, false, ["data:1\n".data].flatten⟩
      = (.ok 1, ⟨false, false, []⟩) :=
  (recv_final_event_at_eof _ ["data:1\n".data] 1
      (fun l hl => by
        rw [List.mem_singleton.mp hl]
        exact ⟨"data:1".data, by decide, by decide, by decide, by decide⟩)
      (by decide) (by decide)).1

/-- C1: for every list of N well-formed, blank-line-terminated events
whose data payloads decode into the stream's item type, N sequential
`Recv` calls on a freshly created stream over those bytes return the N
decoded items in the order the events appear, and the (N+1)th call
returns the end-of-stream sentinel `io.EOF`, not a general error. -/
theorem recvList_succ {α : Type} (dec : String → Option α)
    (s : StreamState) (n : Nat) :
    recvList dec s (n + 1)
      = ((Recv dec s).1 :: (recvList dec (Recv dec s).2 n).1,
         (recvList dec (Recv dec s).2 n).2) := rfl

theorem recv_stream_events {α : Type} : ∀ (dec : String → Option α)
    (blocks : List (List (List Char))) (items : List α),
    (∀ b ∈ blocks, (∀ l ∈ b, IsFieldLine l) ∧ b ≠ []) →
    List.Forall₂
      (fun b it => dec (parseEvent ⟨List.flatten b⟩).data = some it)
      blocks items →
    recvList dec ⟨false, false, streamBytes blocks⟩ (blocks.length + 1)
      = (items.map .ok ++ [.error .eof], ⟨false, false, []⟩) := by
  intro dec blocks items hwf hdec
  revert hwf
  induction hdec with
  | nil =>
    intro _
    simp [streamBytes, recvList, recv_empty dec]
  | @cons b it bs its hbi htail ih =>
    intro hwf
    obtain ⟨hbwf, hbne⟩ := hwf _ (List.mem_cons_self _ _)
    have hre := readEvent_block b (streamBytes bs) "" hbwf (Or.inr hbne)
    rw [string_nil_append] at hre
    have hshape : streamBytes (b :: bs)
        = b.flatten ++ '\n' :: streamBytes bs := by
      simp [streamBytes, eventBytes, List.flatten_cons]
    have hrecv : Recv dec ⟨false, false, streamBytes (b :: bs)⟩
        = (.ok it, ⟨false, false, streamBytes bs⟩) := by
      rw [hshape]
      simp [Recv, hre, hbi]
    have ihh := ih (fun x hx => hwf x (List.mem_cons_of_mem _ hx))
    rw [List.length_cons, recvList_succ, hrecv]
    simp [ihh]

set_option maxRecDepth 8000 in
theorem recv_stream_events_witness :
    recvList
        (fun s => if s = "1" then some 1
          else if s = "2" then some 2 else none)
        ⟨false, false, streamBytes [["data:1\n".data], ["data:2\n".data]]⟩ 3
      = ([1, 2].map .ok ++ [.error .eof], ⟨false, false, []⟩) :=
  recv_stream_events _ [["data:1\n".data], ["data:2\n".data]] [1, 2]
    (fun b hb => by
      rcases List.mem_cons.mp hb with h | hb2
      · subst h
        refine ⟨fun l hl => ?_, by decide⟩
        rw [List.mem_singleton.mp hl]
        exact ⟨"data:1".data, by decide, by decide, by decide, by decide⟩
      · rcases List.mem_cons.mp hb2 with h | hb3
        · subst h
          refine ⟨fun l hl => ?_, by decide⟩
          rw [List.mem_singleton.mp hl]
          exact ⟨"data:2".data, by decide, by decide, by decide, by decide⟩
        · exact absurd hb3 (List.not_mem_nil b))
    (List.Forall₂.cons (by decide) (List.Forall₂.cons (by decide)
      List.Forall₂.nil))

end TabbyAPI
